import Mathlib

/-!
Verification of the ticket-validation pipeline of src/app.py.

The development shallowly embeds the three core functions of the source:

* validate_csv  (src/app.py lines 13-28): extension check and required-column
  check on an uploaded file, modelled on the file name together with its list
  of column names.
* process_tickets (src/app.py lines 31-81): site-code extraction from the
  daily-ticket description (regex at line 37), alarm-time parsing via strptime
  (line 44), most-recent-alarm-per-site resolution (lines 48-55: sort by the
  parsed time descending, group by site, keep the first row of each group),
  a left join on site_code (line 57), the three-way VALIDATION rule
  (lines 59-66), suppression of START TIME on INVALID rows (lines 68-74) and
  the final column projection (lines 76-79).
* get_unique (src/app.py lines 84-91): group the classified table by
  SITE CODE, count rows per group, sort descending by count.

Rows are modelled as structures whose fields are the columns the source
reads; missing values that can genuinely arise (the extracted site code, the
joined alarm, the suppressed start time) are Option values.  Datetimes are
records of numeric fields together with an injective, order-preserving
numeric key, mirroring the physical datetime ordering polars sorts by.
-/

deriving instance DecidableEq for Except

namespace TicketValidation

/-- Whitespace test used for the regex class backslash-s of the extraction
pattern at src/app.py line 37. -/
def isWsChar (c : Char) : Bool :=
  c = ' ' || c = '\t' || c = '\n' || c = '\r' || c = '\x0b' || c = '\x0c'

/-- Word-character test for the regex class of letters, digits and the
underscore used by the extraction pattern at src/app.py line 37. -/
def isWordChar (c : Char) : Bool :=
  ('A' ≤ c && c ≤ 'Z') || ('a' ≤ c && c ≤ 'z') || ('0' ≤ c && c ≤ '9') || c = '_'

/-- Lower-casing of one character, ASCII range, as str.lower acts on the
column names occurring here. -/
def toLowerChar (c : Char) : Char :=
  if 'A' ≤ c && c ≤ 'Z' then Char.ofNat (c.toNat + 32) else c

/-- Lower-casing of a string, src/app.py lines 15, 23 and 24. -/
def toLowerStr (s : String) : String :=
  String.mk (s.data.map toLowerChar)

/-- Surrounding-whitespace removal on a character list. -/
def trimList (l : List Char) : List Char :=
  ((l.dropWhile isWsChar).reverse.dropWhile isWsChar).reverse

/-- Surrounding-whitespace removal, the semantics of str.strip and of the
polars strip_chars default, src/app.py lines 19, 23, 38 and 43. -/
def trimStr (s : String) : String :=
  String.mk (trimList s.data)

/-- Does the pattern list occur at the head of the character list? -/
def startsWithChars : List Char → List Char → Bool
  | [], _ => true
  | _ :: _, [] => false
  | p :: ps, c :: cs => p = c && startsWithChars ps cs

/-- Does the string end with the given suffix, the semantics of endswith at
src/app.py line 15? -/
def endsWithStr (s suf : String) : Bool :=
  startsWithChars suf.data.reverse s.data.reverse

/-- Helper for the extraction regex: after a closing parenthesis, skipping
optional whitespace, is the next character a word character? -/
def wordAfter (l : List Char) : Bool :=
  match l.dropWhile isWsChar with
  | [] => false
  | d :: _ => isWordChar d

/-- Helper for the extraction regex: the maximal word-character run found
after skipping optional whitespace. -/
def runAfter (l : List Char) : List Char :=
  (l.dropWhile isWsChar).takeWhile isWordChar

/-- First match of the extraction regex over the character list: scan left to
right for a closing parenthesis that is followed, after optional whitespace,
by at least one word character, and capture the maximal word run there.
Models str.extract with the pattern at src/app.py line 37. -/
def extractAux : List Char → Option (List Char)
  | [] => none
  | c :: rest =>
    if c = ')' then
      if wordAfter rest then some (runAfter rest) else extractAux rest
    else extractAux rest

/-- Site-code extraction of src/app.py lines 35-40: first regex match of the
pattern, capture group one, then strip_chars. Absent when the pattern does
not match. -/
def extract_site_code (s : String) : Option String :=
  (extractAux s.data).map (fun run => trimStr (String.mk run))

/-- Naive datetime value produced by strptime at src/app.py line 44. The
year is an integer, as the chrono parser behind the polars strptime accepts
signed proleptic years; a leap second is stored as second sixty. -/
structure DT where
  y : Int
  mo : Nat
  d : Nat
  h : Nat
  mi : Nat
  s : Nat
deriving DecidableEq

/-- Numeric key of a naive datetime. On the range-validated values produced
by the parser it realizes the physical timestamp ordering polars sorts by:
monotone in the chronological order, with a leap-second value colliding with
the start of the following minute, exactly as the chrono nanosecond overflow
makes the physical timestamps of the two equal. -/
def DT.key (t : DT) : Int :=
  ((((t.y * 13 + (t.mo : Int)) * 32 + (t.d : Int)) * 24 + (t.h : Int)) * 60
    + (t.mi : Int)) * 60 + (t.s : Int)

/-- Gregorian leap-year test on the proleptic astronomical year, needed to
validate the day-of-month exactly as the strptime of src/app.py line 44
does. -/
def isLeap (y : Int) : Bool :=
  (y % 4 = 0 && ¬ y % 100 = 0) || y % 400 = 0

/-- Number of days of a month, for the calendar validation of strptime. -/
def daysInMonth (y : Int) (mo : Nat) : Nat :=
  if mo = 2 then (if isLeap y then 29 else 28)
  else if mo = 4 || mo = 6 || mo = 9 || mo = 11 then 30
  else 31

/-- Decimal digit test; the chrono numeric scanner accepts only the ten
ASCII digits. -/
def isDigitChar (c : Char) : Bool := '0' ≤ c && c ≤ '9'

/-- Greedy digit scanner of the chrono numeric parser: consume at most the
given number of further digits, accumulating the value and counting the
digits read, and return the value, the count and the rest of the input. -/
def scanDigits (acc cnt maxN : Nat) : List Char → (Nat × Nat × List Char)
  | [] => (acc, cnt, [])
  | c :: cs =>
    if decide (cnt < maxN) && isDigitChar c then
      scanDigits (acc * 10 + (c.toNat - '0'.toNat)) (cnt + 1) maxN cs
    else (acc, cnt, c :: cs)

/-- Unbounded greedy digit scanner, used by chrono after an explicit year
sign. -/
def scanDigitsAll (acc cnt : Nat) : List Char → (Nat × Nat × List Char)
  | [] => (acc, cnt, [])
  | c :: cs =>
    if isDigitChar c then
      scanDigitsAll (acc * 10 + (c.toNat - '0'.toNat)) (cnt + 1) cs
    else (acc, cnt, c :: cs)

/-- Numeric field of the chrono parser: between one and maxN digits, read
greedily; fails when no digit is present. -/
def parseNum (maxN : Nat) (l : List Char) : Option (Nat × List Char) :=
  match scanDigits 0 0 maxN l with
  | (v, cnt, rest) => if decide (1 ≤ cnt) then some (v, rest) else none

/-- Literal item of the chrono parser: the exact next character. -/
def expectChar (c : Char) : List Char → Option (List Char)
  | [] => none
  | x :: xs => if x = c then some xs else none

/-- Year field of the chrono parser: an optional explicit sign followed by
unboundedly many digits, or, without a sign, one up to four digits read
greedily. -/
def parseYear : List Char → Option (Int × List Char)
  | [] => none
  | c :: cs =>
    if c = '+' then
      match scanDigitsAll 0 0 cs with
      | (v, cnt, rest) => if decide (1 ≤ cnt) then some ((v : Int), rest) else none
    else if c = '-' then
      match scanDigitsAll 0 0 cs with
      | (v, cnt, rest) => if decide (1 ≤ cnt) then some (-(v : Int), rest) else none
    else
      match scanDigits 0 0 4 (c :: cs) with
      | (v, cnt, rest) => if decide (1 ≤ cnt) then some ((v : Int), rest) else none

/-- Alarm-time parser of src/app.py line 44: the polars strptime with the
explicit format of year, month, day, hour, minute and second, whose
observable language is the chrono parse semantics the fast path falls back
to. Numeric fields read one up to their width of digits greedily with no
zero-padding requirement, the year may carry an explicit sign with
unboundedly many digits and must lie in the chrono year range, the space of
the format skips any run of whitespace in the input (modelled over the ASCII
whitespace the data carries), the dashes and colons are exact literals, the
whole string must be consumed, and the values are validated against the
calendar and the clock with the leap-second value sixty allowed. Returns
none exactly when strptime raises. -/
def parseAlarmTime (str : String) : Option DT :=
  (parseYear str.data).bind (fun yr =>
  (expectChar '-' yr.2).bind (fun r2 =>
  (parseNum 2 r2).bind (fun mor =>
  (expectChar '-' mor.2).bind (fun r4 =>
  (parseNum 2 r4).bind (fun dr =>
  (parseNum 2 (dr.2.dropWhile isWsChar)).bind (fun hr =>
  (expectChar ':' hr.2).bind (fun r7 =>
  (parseNum 2 r7).bind (fun mir =>
  (expectChar ':' mir.2).bind (fun r9 =>
  (parseNum 2 r9).bind (fun sr =>
    if decide (sr.2 = []) && decide (-262144 ≤ yr.1) && decide (yr.1 ≤ 262143)
        && decide (1 ≤ mor.1) && decide (mor.1 ≤ 12) && decide (1 ≤ dr.1)
        && decide (dr.1 ≤ daysInMonth yr.1 mor.1) && decide (hr.1 ≤ 23)
        && decide (mir.1 ≤ 59) && decide (sr.1 ≤ 60) then
      some ⟨yr.1, mor.1, dr.1, hr.1, mir.1, sr.1⟩
    else none))))))))))

/-- Input row of the alarm-tickets file, after schema validation: the three
columns read at src/app.py lines 42-46. -/
structure AlarmInput where
  controllingObjectName : String
  alarmTime : String
  alarmText : String
deriving DecidableEq

/-- Spliced alarm row of src/app.py lines 42-46: trimmed site code, parsed
start time, alarm text. -/
structure AlarmRow where
  site : String
  startTime : DT
  text : String
deriving DecidableEq

/-- Failure raised while building the classified table; the only runtime
failure of the typed stage is the strptime failure of line 44. -/
inductive PipelineError where
  | parseError (value : String)
deriving DecidableEq

/-- Splicing step of src/app.py lines 42-46: build the alarm rows, failing on
the first alarm-time value strptime rejects, as the eager collect does. -/
def spliceAlarms : List AlarmInput → Except PipelineError (List AlarmRow)
  | [] => .ok []
  | t :: ts =>
    match parseAlarmTime t.alarmTime with
    | none => .error (.parseError t.alarmTime)
    | some dt =>
      match spliceAlarms ts with
      | .error e => .error e
      | .ok rs => .ok (⟨trimStr t.controllingObjectName, dt, t.alarmText⟩ :: rs)

/-- Descending-time order used by the sort of src/app.py line 49. -/
def descTime (a b : AlarmRow) : Prop :=
  b.startTime.key ≤ a.startTime.key

instance descTime.decRel : DecidableRel descTime :=
  fun a b => Int.decLe b.startTime.key a.startTime.key

instance descTime.isTotal : IsTotal AlarmRow descTime :=
  ⟨fun a b => Int.le_total b.startTime.key a.startTime.key⟩

instance descTime.isTrans : IsTrans AlarmRow descTime :=
  ⟨fun _ _ _ h1 h2 => Int.le_trans h2 h1⟩

/-- Group-by with first aggregation of src/app.py lines 50-54: keep the first
row of each site, in order, skipping sites already seen. -/
def dedupFirstAlarm (seen : List String) : List AlarmRow → List AlarmRow
  | [] => []
  | r :: rs =>
    if r.site ∈ seen then dedupFirstAlarm seen rs
    else r :: dedupFirstAlarm (r.site :: seen) rs

/-- Alarm resolver of src/app.py lines 48-55: sort the spliced rows by the
parsed start time descending and keep the first row per site. -/
def resolve_latest (rows : List AlarmRow) : List AlarmRow :=
  dedupFirstAlarm [] (List.insertionSort descTime rows)

/-- Input row of the daily-tickets file, after schema validation: the columns
src/app.py reads at lines 35-40 and 76-79. -/
structure DailyInput where
  number : String
  opened_at : String
  short_description : String
  sys_updated_on : String
  ALARMS : String
deriving DecidableEq

/-- Row of each side kept by the left join of src/app.py line 57: the daily
ticket with its extracted site code, paired with the matched resolved alarm
when one exists. -/
def joinOne (d : DailyInput × Option String) (g : List AlarmRow) :
    List ((DailyInput × Option String) × Option AlarmRow) :=
  match d.2 with
  | none => [(d, none)]
  | some sc =>
    match g.filter (fun r => decide (r.site = sc)) with
    | [] => [(d, none)]
    | m :: ms => (m :: ms).map (fun r => (d, some r))

/-- Left join of src/app.py line 57: every daily row paired with each
matching resolved alarm, or with no alarm when no key matches; a null
extracted site code matches nothing. -/
def left_join : List (DailyInput × Option String) → List AlarmRow →
    List ((DailyInput × Option String) × Option AlarmRow)
  | [], _ => []
  | d :: ds, g => joinOne d g ++ left_join ds g

/-- Fixed diagnostic substring of the VALIDATION rule at src/app.py line 62. -/
def diagSubstr : String := "NE3SWS AGENT NOT RESPONDING TO REQUESTS"

/-- Does the pattern list occur anywhere inside the character list? -/
def containsSubChars (pat : List Char) : List Char → Bool
  | [] => pat.isEmpty
  | c :: cs => startsWithChars pat (c :: cs) || containsSubChars pat cs

/-- Case-sensitive substring containment, the semantics of str.contains at
src/app.py line 62 on a pattern with no regex metacharacter. -/
def strContainsSub (s pat : String) : Bool :=
  containsSubChars pat.data s.data

/-- VALIDATION rule of src/app.py lines 59-66, evaluated in source order:
a null joined alarm gives NOT IN NMS, a matched alarm text containing the
diagnostic substring gives VALID, anything else gives INVALID. -/
def validationOf (m : Option AlarmRow) : String :=
  match m with
  | none => "NOT IN NMS"
  | some r => if strContainsSub r.text diagSubstr then ("VALID") else ("INVALID")

/-- Output row of process_tickets, the columns projected at src/app.py
lines 76-79. START TIME and SITE CODE are optional values, as in the
collected frame. -/
structure OutRow where
  number : String
  opened_at : String
  short_description : String
  sys_updated_on : String
  ALARMS : String
  VALIDATION : String
  startTime : Option DT
  siteCode : Option String
deriving DecidableEq

/-- Classification of one joined row, src/app.py lines 59-79: compute
VALIDATION, suppress START TIME on INVALID rows, copy the site code, project
the output columns. -/
def mkOutRow (p : (DailyInput × Option String) × Option AlarmRow) : OutRow :=
  let v := validationOf p.2
  { number := p.1.1.number
    opened_at := p.1.1.opened_at
    short_description := p.1.1.short_description
    sys_updated_on := p.1.1.sys_updated_on
    ALARMS := p.1.1.ALARMS
    VALIDATION := v
    startTime := if v = "INVALID" then none else p.2.map (fun r => r.startTime)
    siteCode := p.1.2 }

/-- Typed core of process_tickets, src/app.py lines 31-81, on
schema-validated inputs: splice and parse the alarm rows (the only failing
step), extract the site codes, resolve the latest alarm per site, left join
and classify. -/
def process_tickets (daily : List DailyInput) (tickets : List AlarmInput) :
    Except PipelineError (List OutRow) :=
  match spliceAlarms tickets with
  | .error e => .error e
  | .ok spliced =>
    .ok ((left_join (daily.map (fun d => (d, extract_site_code d.short_description)))
      (resolve_latest spliced)).map mkOutRow)

/-- Uploaded file as validate_csv sees it: its name and its column names. -/
structure UploadedFile where
  name : String
  cols : List String
deriving DecidableEq

/-- Failure raised by validate_csv, src/app.py lines 15-26. The missing
columns are carried as data: the source message enumerates exactly them. -/
inductive SchemaError where
  | notCsv (name : String)
  | missingColumns (cols : List String)
deriving DecidableEq

/-- Schema validator of src/app.py lines 13-28: reject a name whose
lower-cased form does not end in the csv extension; trim the column names;
reject when some required column, lower-cased (the source does not trim it,
line 24), is not among the trimmed then lower-cased then trimmed column
names; otherwise return the trimmed column names. -/
def validate_csv (f : UploadedFile) (required_cols : List String) :
    Except SchemaError (List String) :=
  if endsWithStr (toLowerStr f.name) ".csv" then
    let trimmed := f.cols.map trimStr
    let colNames := trimmed.map (fun c => trimStr (toLowerStr c))
    let missing := required_cols.filter (fun c => ! colNames.contains (toLowerStr c))
    if missing.isEmpty then .ok trimmed else .error (.missingColumns missing)
  else .error (.notCsv f.name)

/-- Required columns of the daily-tickets file, src/app.py line 32. -/
def dailyRequiredCols : List String := ["short_description", "ALARMS"]

/-- Required columns of the alarm-tickets file, src/app.py line 33. -/
def ticketsRequiredCols : List String :=
  ["Controlling Object Name", "Alarm Time", "Alarm Text"]

/-- Daily-ticket column names process_tickets references by their exact
canonical spelling after validation: line 36 and the projection at
lines 76-79. -/
def dailyExactCols : List String :=
  ["short_description", "number", "opened_at", "sys_updated_on", "ALARMS"]

/-- Failure of the raw daily stage: schema rejection, or a column reference
by exact name that the validated frame does not carry. -/
inductive RawError where
  | schema (e : SchemaError)
  | columnNotFound (c : String)
deriving DecidableEq

/-- Raw daily-tickets stage: validate_csv as called at src/app.py line 32,
then the column references process_tickets makes by exact name, which are
how pl.col and select resolve columns; the first canonical name absent from
the validated frame fails the run. -/
def rawDailyStage (f : UploadedFile) : Except RawError (List String) :=
  match validate_csv f dailyRequiredCols with
  | .error e => .error (.schema e)
  | .ok cols =>
    match dailyExactCols.find? (fun c => ! cols.contains c) with
    | some c => .error (.columnNotFound c)
    | none => .ok cols

/-- Count of the rows carrying a given site-code key, the per-group length
of src/app.py line 88. -/
def countKey (l : List (Option String)) (k : Option String) : Nat :=
  l.countP (fun x => decide (x = k))

/-- First-occurrence list of distinct site-code keys, the group keys of the
group_by at src/app.py line 87; a null site code is a key like any other. -/
def keysOfAux (seen : List (Option String)) : List (Option String) → List (Option String)
  | [] => []
  | k :: ks =>
    if k ∈ seen then keysOfAux seen ks
    else k :: keysOfAux (k :: seen) ks

/-- Distinct keys of a site-code column. -/
def keysOf (l : List (Option String)) : List (Option String) :=
  keysOfAux [] l

/-- Descending order on the counted groups, the sort of src/app.py line 89. -/
def descCount (a b : Option String × Nat) : Prop :=
  b.2 ≤ a.2

instance descCount.decRel : DecidableRel descCount :=
  fun a b => Nat.decLe b.2 a.2

instance descCount.isTotal : IsTotal (Option String × Nat) descCount :=
  ⟨fun a b => Nat.le_total b.2 a.2⟩

instance descCount.isTrans : IsTrans (Option String × Nat) descCount :=
  ⟨fun _ _ _ h1 h2 => Nat.le_trans h2 h1⟩

/-- Site summary of src/app.py lines 84-91: group the SITE CODE column,
count the rows of each group, sort descending by count. -/
def get_unique (l : List (Option String)) : List (Option String × Nat) :=
  List.insertionSort descCount ((keysOf l).map (fun k => (k, countKey l k)))

/-- Modelled from the spec wording of claim C8: the number of classified
tickets whose site code is non-absent, the total the claim asserts for the
summary counts. -/
def specNonAbsentCount (l : List (Option String)) : Nat :=
  (l.filter (fun x => x.isSome)).length

/-- Modelled from the spec wording of claim C9: the maximal word run that
follows the first closing parenthesis of the text and optional whitespace,
absent when there is no closing parenthesis or no run follows it. -/
def firstParenRun (s : String) : Option String :=
  match s.data.dropWhile (fun c => ¬ c = ')') with
  | [] => none
  | _ :: rest =>
    let run := runAfter rest
    if run.isEmpty then none else some (trimStr (String.mk run))

/-- Position-indexed form of the extraction pattern: does a match of the
regex of src/app.py line 37 start at index i of the character list? -/
def goodAt (l : List Char) (i : Nat) : Bool :=
  match l.drop i with
  | [] => false
  | c :: rest => c = ')' && wordAfter rest

/-- Concrete daily ticket of the end-to-end examples of the spec. -/
def exDaily : DailyInput :=
  ⟨"INC0001", "2024-01-01 09:00:00", "(INC001) SITE42 link down",
   "2024-01-02 00:00:00", "A"⟩

/-- Concrete alarm-tickets row of the end-to-end VALID example of the spec. -/
def exAlarm : AlarmInput :=
  ⟨"SITE42", "2024-01-01 10:00:00", "NE3SWS AGENT NOT RESPONDING TO REQUESTS"⟩

/-- Spliced form of the concrete alarm row. -/
def exAlarmRow : AlarmRow :=
  ⟨"SITE42", ⟨2024, 1, 1, 10, 0, 0⟩, "NE3SWS AGENT NOT RESPONDING TO REQUESTS"⟩

/-- Classified output row the pipeline produces on the concrete example. -/
def exOut : OutRow :=
  ⟨"INC0001", "2024-01-01 09:00:00", "(INC001) SITE42 link down",
   "2024-01-02 00:00:00", "A", "VALID", some ⟨2024, 1, 1, 10, 0, 0⟩,
   some ("SITE42")⟩

/-- Modelled from the spec wording of claim C2: the start time the claim
expects on the concrete example, the alarm time shifted to eighteen hundred
hours by the asserted offset normalization. -/
def specExpectedStart : DT := ⟨2024, 1, 1, 18, 0, 0⟩

/-- Two alarm rows of one site with distinct times, for the resolver
witness. -/
def exRowA : AlarmRow := ⟨"S1", ⟨2024, 1, 1, 0, 0, 0⟩, "a"⟩

/-- The later of the two alarm rows of the resolver witness. -/
def exRowB : AlarmRow := ⟨"S1", ⟨2024, 1, 2, 0, 0, 0⟩, "b"⟩

/-- Alarm list of the resolver witness. -/
def exRows : List AlarmRow := [exRowA, exRowB]

/-- Daily-tickets file whose headers differ from the canonical names only in
case, for claim C10. -/
def exFileC10 : UploadedFile :=
  ⟨"daily.csv", ["number", "opened_at", "SHORT_DESCRIPTION", "sys_updated_on", "ALARMS"]⟩

/-- Alarm-tickets file with upper-cased headers, accepted by the validator. -/
def exFileC6 : UploadedFile :=
  ⟨"tickets.csv", ["CONTROLLING OBJECT NAME", "Alarm Time", "Alarm Text"]⟩

theorem process_tickets_ok (daily : List DailyInput) (tickets : List AlarmInput)
    (spliced : List AlarmRow) (out : List OutRow)
    (hs : spliceAlarms tickets = .ok spliced)
    (hp : process_tickets daily tickets = .ok out) :
    out = (left_join (daily.map (fun d => (d, extract_site_code d.short_description)))
      (resolve_latest spliced)).map mkOutRow := by
  simp only [process_tickets] at hp
  rw [hs] at hp
  exact (Except.ok.inj hp).symm

theorem dedupFirstAlarm_subset (l : List AlarmRow) :
    ∀ seen, ∀ r ∈ dedupFirstAlarm seen l, r ∈ l := by
  induction l with
  | nil => intro seen r hr; exact absurd hr (List.not_mem_nil r)
  | cons x xs ih =>
    intro seen r hr
    simp only [dedupFirstAlarm] at hr
    by_cases hx : x.site ∈ seen
    · rw [if_pos hx] at hr
      exact List.mem_cons_of_mem x (ih seen r hr)
    · rw [if_neg hx] at hr
      rcases List.mem_cons.mp hr with rfl | hmem
      · exact List.mem_cons_self r xs
      · exact List.mem_cons_of_mem x (ih (x.site :: seen) r hmem)

theorem dedupFirstAlarm_not_seen (l : List AlarmRow) :
    ∀ seen, ∀ r ∈ dedupFirstAlarm seen l, r.site ∉ seen := by
  induction l with
  | nil => intro seen r hr; exact absurd hr (List.not_mem_nil r)
  | cons x xs ih =>
    intro seen r hr
    simp only [dedupFirstAlarm] at hr
    by_cases hx : x.site ∈ seen
    · rw [if_pos hx] at hr
      exact ih seen r hr
    · rw [if_neg hx] at hr
      rcases List.mem_cons.mp hr with rfl | hmem
      · exact hx
      · intro hcon
        exact ih (x.site :: seen) r hmem (List.mem_cons_of_mem x.site hcon)

theorem dedupFirstAlarm_pairwise (l : List AlarmRow) :
    ∀ seen, (dedupFirstAlarm seen l).Pairwise (fun a b => a.site ≠ b.site) := by
  induction l with
  | nil => intro seen; simp [dedupFirstAlarm]
  | cons x xs ih =>
    intro seen
    simp only [dedupFirstAlarm]
    by_cases hx : x.site ∈ seen
    · rw [if_pos hx]; exact ih seen
    · rw [if_neg hx]
      refine List.Pairwise.cons ?_ (ih (x.site :: seen))
      intro b hb hcon
      exact dedupFirstAlarm_not_seen xs (x.site :: seen) b hb
        (by rw [← hcon]; exact List.mem_cons_self x.site seen)

theorem dedupFirstAlarm_max (l : List AlarmRow) :
    ∀ seen, l.Sorted descTime →
      ∀ r ∈ dedupFirstAlarm seen l, ∀ s ∈ l, s.site = r.site →
        s.startTime.key ≤ r.startTime.key := by
  induction l with
  | nil => intro seen _ r hr; exact absurd hr (List.not_mem_nil r)
  | cons x xs ih =>
    intro seen hsort r hr s hs hsite
    have hx_rel := List.rel_of_sorted_cons hsort
    have hxs_sort := (List.sorted_cons.mp hsort).2
    simp only [dedupFirstAlarm] at hr
    by_cases hx : x.site ∈ seen
    · rw [if_pos hx] at hr
      have hrs : r.site ∉ seen := dedupFirstAlarm_not_seen xs seen r hr
      rcases List.mem_cons.mp hs with rfl | hmem
      · exact absurd (hsite ▸ hx) hrs
      · exact ih seen hxs_sort r hr s hmem hsite
    · rw [if_neg hx] at hr
      rcases List.mem_cons.mp hr with rfl | hrmem
      · rcases List.mem_cons.mp hs with rfl | hmem
        · exact le_refl _
        · exact hx_rel s hmem
      · have hrs : r.site ∉ x.site :: seen :=
          dedupFirstAlarm_not_seen xs (x.site :: seen) r hrmem
        have hrx : r.site ≠ x.site := fun hcon =>
          hrs (hcon ▸ List.mem_cons_self x.site seen)
        rcases List.mem_cons.mp hs with rfl | hmem
        · exact absurd hsite.symm hrx
        · exact ih (x.site :: seen) hxs_sort r hrmem s hmem hsite

theorem resolve_latest_pairwise (rows : List AlarmRow) :
    (resolve_latest rows).Pairwise (fun a b => a.site ≠ b.site) :=
  dedupFirstAlarm_pairwise (List.insertionSort descTime rows) []

theorem resolve_latest_subset (rows : List AlarmRow) :
    ∀ r ∈ resolve_latest rows, r ∈ rows := fun r hr =>
  (List.mem_insertionSort descTime).mp
    (dedupFirstAlarm_subset (List.insertionSort descTime rows) [] r hr)

theorem resolve_latest_max (rows : List AlarmRow) :
    ∀ r ∈ resolve_latest rows, ∀ s ∈ rows, s.site = r.site →
      s.startTime.key ≤ r.startTime.key := by
  intro r hr s hs hsite
  exact dedupFirstAlarm_max (List.insertionSort descTime rows) []
    (List.sorted_insertionSort descTime rows) r hr s
    ((List.mem_insertionSort descTime).mpr hs) hsite

theorem resolve_latest_unique (rows : List AlarmRow) :
    ∀ r ∈ resolve_latest rows, ∀ q ∈ resolve_latest rows, r.site = q.site → r = q := by
  intro r hr q hq hsite
  have hsymm : Symmetric (fun (a b : AlarmRow) => a.site ≠ b.site) :=
    fun a b h hc => h hc.symm
  by_cases heq : r = q
  · exact heq
  · exact absurd hsite ((resolve_latest_pairwise rows).forall hsymm hr hq heq)

/-- C4: the alarm resolver keeps at most one record per distinct site code,
and every record it keeps comes from the input and carries a maximal alarm
time among the records of its site, as the descending sort followed by the
first-per-group aggregation guarantees. -/
theorem c4_resolver_latest_per_site (rows : List AlarmRow) :
    (resolve_latest rows).Pairwise (fun a b => a.site ≠ b.site) ∧
    ∀ r ∈ resolve_latest rows, r ∈ rows ∧
      ∀ s ∈ rows, s.site = r.site → s.startTime.key ≤ r.startTime.key :=
  ⟨resolve_latest_pairwise rows, fun r hr =>
    ⟨resolve_latest_subset rows r hr, resolve_latest_max rows r hr⟩⟩

/-- C4 witness: on two alarms of one site the resolver keeps the later one,
whose key dominates the earlier. -/
theorem c4_resolver_latest_per_site_witness :
    exRowA.startTime.key ≤ exRowB.startTime.key :=
  ((c4_resolver_latest_per_site exRows).2 exRowB (by decide)).2 exRowA
    (by decide) (by decide)

theorem joinOne_mem_none (d q : DailyInput × Option String) (g : List AlarmRow) :
    ((q, (none : Option AlarmRow)) ∈ joinOne d g) ↔
      (q = d ∧ ∀ r ∈ g, d.2 ≠ some r.site) := by
  obtain ⟨dd, dsc⟩ := d
  cases dsc with
  | none =>
    simp only [joinOne]
    constructor
    · intro h
      have heq := List.mem_singleton.mp h
      have hq : q = (dd, none) := congrArg Prod.fst heq
      exact ⟨hq, fun r _ => Option.noConfusion⟩
    · intro ⟨hq, _⟩
      rw [hq]
      exact List.mem_singleton.mpr rfl
  | some sc =>
    cases hf : g.filter (fun r => decide (r.site = sc)) with
    | nil =>
      simp only [joinOne, hf]
      constructor
      · intro h
        have heq := List.mem_singleton.mp h
        have hq : q = (dd, some sc) := congrArg Prod.fst heq
        refine ⟨hq, fun r hr hcon => ?_⟩
        have hne := List.filter_eq_nil_iff.mp hf r hr
        exact hne (decide_eq_true (Option.some.inj hcon).symm)
      · intro ⟨hq, _⟩
        rw [hq]
        exact List.mem_singleton.mpr rfl
    | cons m ms =>
      simp only [joinOne, hf]
      constructor
      · intro h
        obtain ⟨a, _, ha⟩ := List.mem_map.mp h
        exact absurd (congrArg Prod.snd ha) (by simp)
      · intro ⟨_, hnone⟩
        have hm : m ∈ g.filter (fun r => decide (r.site = sc)) := by
          rw [hf]; exact List.mem_cons_self m ms
        have := List.mem_filter.mp hm
        exact absurd (congrArg some (of_decide_eq_true this.2).symm) (hnone m this.1)

theorem joinOne_mem_some (d q : DailyInput × Option String) (g : List AlarmRow)
    (r : AlarmRow) :
    ((q, some r) ∈ joinOne d g) ↔ (q = d ∧ r ∈ g ∧ d.2 = some r.site) := by
  obtain ⟨dd, dsc⟩ := d
  cases dsc with
  | none =>
    simp only [joinOne]
    constructor
    · intro h
      have heq := List.mem_singleton.mp h
      exact absurd (congrArg Prod.snd heq) (by simp)
    · intro ⟨_, _, hcon⟩
      exact Option.noConfusion hcon
  | some sc =>
    cases hf : g.filter (fun r => decide (r.site = sc)) with
    | nil =>
      simp only [joinOne, hf]
      constructor
      · intro h
        have heq := List.mem_singleton.mp h
        exact absurd (congrArg Prod.snd heq) (by simp)
      · intro ⟨_, hrg, hsite⟩
        have : r ∈ g.filter (fun rr => decide (rr.site = sc)) :=
          List.mem_filter.mpr ⟨hrg, decide_eq_true (Option.some.inj hsite).symm⟩
        rw [hf] at this
        exact absurd this (List.not_mem_nil r)
    | cons m ms =>
      simp only [joinOne, hf]
      constructor
      · intro h
        obtain ⟨a, ha_mem, ha⟩ := List.mem_map.mp h
        have hq : q = (dd, some sc) := (congrArg Prod.fst ha).symm
        have hra : a = r := Option.some.inj (congrArg Prod.snd ha)
        have haf : a ∈ g.filter (fun rr => decide (rr.site = sc)) := by
          rw [hf]; exact ha_mem
        have hfm := List.mem_filter.mp haf
        have hsc : a.site = sc := of_decide_eq_true hfm.2
        refine ⟨hq, hra ▸ hfm.1, ?_⟩
        rw [← hra, hsc]
      · intro ⟨hq, hrg, hsite⟩
        refine List.mem_map.mpr ⟨r, ?_, by rw [hq]⟩
        have : r ∈ g.filter (fun rr => decide (rr.site = sc)) :=
          List.mem_filter.mpr ⟨hrg, decide_eq_true (Option.some.inj hsite).symm⟩
        rw [hf] at this
        exact this

theorem left_join_mem_none (ds : List (DailyInput × Option String)) (g : List AlarmRow)
    (q : DailyInput × Option String) :
    ((q, (none : Option AlarmRow)) ∈ left_join ds g) ↔
      (q ∈ ds ∧ ∀ r ∈ g, q.2 ≠ some r.site) := by
  induction ds with
  | nil => simp [left_join]
  | cons d ds ih =>
    simp only [left_join, List.mem_append]
    constructor
    · intro h
      rcases h with h | h
      · obtain ⟨hq, hnone⟩ := (joinOne_mem_none d q g).mp h
        refine ⟨by rw [hq]; exact List.mem_cons_self d ds, by rw [hq]; exact hnone⟩
      · obtain ⟨hq, hnone⟩ := ih.mp h
        exact ⟨List.mem_cons_of_mem d hq, hnone⟩
    · intro ⟨hq, hnone⟩
      rcases List.mem_cons.mp hq with rfl | hmem
      · exact Or.inl ((joinOne_mem_none q q g).mpr ⟨rfl, hnone⟩)
      · exact Or.inr (ih.mpr ⟨hmem, hnone⟩)

theorem left_join_mem_some (ds : List (DailyInput × Option String)) (g : List AlarmRow)
    (q : DailyInput × Option String) (r : AlarmRow) :
    ((q, some r) ∈ left_join ds g) ↔ (q ∈ ds ∧ r ∈ g ∧ q.2 = some r.site) := by
  induction ds with
  | nil => simp [left_join]
  | cons d ds ih =>
    simp only [left_join, List.mem_append]
    constructor
    · intro h
      rcases h with h | h
      · obtain ⟨hq, hrg, hsite⟩ := (joinOne_mem_some d q g r).mp h
        refine ⟨by rw [hq]; exact List.mem_cons_self d ds, hrg, by rw [hq]; exact hsite⟩
      · obtain ⟨hq, hrest⟩ := ih.mp h
        exact ⟨List.mem_cons_of_mem d hq, hrest⟩
    · intro ⟨hq, hrg, hsite⟩
      rcases List.mem_cons.mp hq with rfl | hmem
      · exact Or.inl ((joinOne_mem_some q q g r).mpr ⟨rfl, hrg, hsite⟩)
      · exact Or.inr (ih.mpr ⟨hmem, hrg, hsite⟩)

/-- C1: every classified ticket obeys the precedence of the VALIDATION rule:
NOT IN NMS exactly when no resolved alarm carries the site code of the
ticket; otherwise VALID exactly when the matched alarm text contains the
fixed diagnostic substring, case-sensitively; otherwise INVALID. -/
theorem c1_validation_rule (daily : List DailyInput) (tickets : List AlarmInput)
    (spliced : List AlarmRow) (out : List OutRow)
    (hs : spliceAlarms tickets = .ok spliced)
    (hp : process_tickets daily tickets = .ok out)
    (row : OutRow) (hrow : row ∈ out) :
    (row.VALIDATION = "NOT IN NMS" ↔
      ∀ r ∈ resolve_latest spliced, row.siteCode ≠ some r.site) ∧
    (∀ r ∈ resolve_latest spliced, row.siteCode = some r.site →
      (row.VALIDATION = "VALID" ↔ strContainsSub r.text diagSubstr = true)) ∧
    (row.VALIDATION = "INVALID" ↔
      ∃ r ∈ resolve_latest spliced, row.siteCode = some r.site ∧
        strContainsSub r.text diagSubstr = false) := by
  rw [process_tickets_ok daily tickets spliced out hs hp] at hrow
  obtain ⟨p, hpmem, hrow_eq⟩ := List.mem_map.mp hrow
  obtain ⟨q, m⟩ := p
  subst hrow_eq
  cases m with
  | none =>
    obtain ⟨hqmem, hnone⟩ := (left_join_mem_none _ _ q).mp hpmem
    refine ⟨⟨fun _ r hr => hnone r hr, fun _ => rfl⟩, ?_, ?_⟩
    · intro r hr hsite
      exact absurd hsite (hnone r hr)
    · constructor
      · intro hv
        rw [show (mkOutRow (q, none)).VALIDATION = "NOT IN NMS" from rfl] at hv
        exact absurd hv (by decide)
      · rintro ⟨r, hr, hsite, _⟩
        exact absurd hsite (hnone r hr)
  | some mm =>
    obtain ⟨hqmem, hmg, hsiteq⟩ := (left_join_mem_some _ _ q mm).mp hpmem
    cases hc : strContainsSub mm.text diagSubstr with
    | true =>
      have hv : (mkOutRow (q, some mm)).VALIDATION = "VALID" := by
        simp [mkOutRow, validationOf, hc]
      refine ⟨?_, ?_, ?_⟩
      · constructor
        · intro h
          rw [hv] at h
          exact absurd h (by decide)
        · intro hall
          exact absurd hsiteq (hall mm hmg)
      · intro r hr hsite2
        have h1 : r.site = mm.site := Option.some.inj (hsite2.symm.trans hsiteq)
        have hrm : r = mm := resolve_latest_unique spliced r hr mm hmg h1
        rw [hv, hrm, hc]
        simp
      · constructor
        · intro h
          rw [hv] at h
          exact absurd h (by decide)
        · rintro ⟨r, hr, hsite2, hcf⟩
          have h1 : r.site = mm.site := Option.some.inj (hsite2.symm.trans hsiteq)
          have hrm : r = mm := resolve_latest_unique spliced r hr mm hmg h1
          rw [hrm, hc] at hcf
          exact Bool.noConfusion hcf
    | false =>
      have hv : (mkOutRow (q, some mm)).VALIDATION = "INVALID" := by
        simp [mkOutRow, validationOf, hc]
      refine ⟨?_, ?_, ?_⟩
      · constructor
        · intro h
          rw [hv] at h
          exact absurd h (by decide)
        · intro hall
          exact absurd hsiteq (hall mm hmg)
      · intro r hr hsite2
        have h1 : r.site = mm.site := Option.some.inj (hsite2.symm.trans hsiteq)
        have hrm : r = mm := resolve_latest_unique spliced r hr mm hmg h1
        rw [hv, hrm, hc]
        constructor
        · intro h
          exact absurd h (by decide)
        · intro h
          exact Bool.noConfusion h
      · exact ⟨fun _ => ⟨mm, hmg, hsiteq, hc⟩, fun _ => hv⟩

/-- C1 witness: the end-to-end example row, matched to the diagnostic alarm
text, is classified VALID by the rule. -/
theorem c1_validation_rule_witness : exOut.VALIDATION = "VALID" := by
  have h := c1_validation_rule [exDaily] [exAlarm] [exAlarmRow] [exOut]
    (by decide) (by decide) exOut (by decide)
  exact (h.2.1 exAlarmRow (by decide) (by decide)).mpr (by decide)

/-- C2 counterexample: on the end-to-end example of the spec the pipeline
emits the parsed naive alarm time unchanged, still ten hundred hours with no
offset attached, not the eighteen-hundred-hours value with a fixed offset
that the claim asserts; no timezone normalization exists in the source. -/
theorem c2_counterexample :
    process_tickets [exDaily] [exAlarm] = .ok [exOut] ∧
    exOut.startTime = some ⟨2024, 1, 1, 10, 0, 0⟩ ∧
    exOut.startTime ≠ some specExpectedStart := by decide

/-- C2 amended: for every classified ticket with a matched resolved alarm
and a VALIDATION other than INVALID, the output START TIME is exactly the
naive alarm time strptime parsed from the matched record, unchanged: no
timezone interpretation, no offset, no shift. -/
theorem c2_start_time_value (daily : List DailyInput) (tickets : List AlarmInput)
    (spliced : List AlarmRow) (out : List OutRow)
    (hs : spliceAlarms tickets = .ok spliced)
    (hp : process_tickets daily tickets = .ok out)
    (row : OutRow) (hrow : row ∈ out)
    (r : AlarmRow) (hr : r ∈ resolve_latest spliced)
    (hsite : row.siteCode = some r.site)
    (hv : row.VALIDATION ≠ "INVALID") :
    row.startTime = some r.startTime := by
  rw [process_tickets_ok daily tickets spliced out hs hp] at hrow
  obtain ⟨p, hpmem, hrow_eq⟩ := List.mem_map.mp hrow
  obtain ⟨q, m⟩ := p
  subst hrow_eq
  cases m with
  | none =>
    obtain ⟨hqmem, hnone⟩ := (left_join_mem_none _ _ q).mp hpmem
    exact absurd hsite (hnone r hr)
  | some mm =>
    obtain ⟨hqmem, hmg, hsiteq⟩ := (left_join_mem_some _ _ q mm).mp hpmem
    have h1 : r.site = mm.site := Option.some.inj (hsite.symm.trans hsiteq)
    have hrm : r = mm := resolve_latest_unique spliced r hr mm hmg h1
    cases hc : strContainsSub mm.text diagSubstr with
    | false =>
      have : (mkOutRow (q, some mm)).VALIDATION = "INVALID" := by
        simp [mkOutRow, validationOf, hc]
      exact absurd this hv
    | true =>
      have hst : (mkOutRow (q, some mm)).startTime = some mm.startTime := by
        simp [mkOutRow, validationOf, hc]
      rw [hst, hrm]

/-- C2 witness: the example VALID row carries the unchanged parsed alarm
time. -/
theorem c2_start_time_value_witness : exOut.startTime = some ⟨2024, 1, 1, 10, 0, 0⟩ :=
  c2_start_time_value [exDaily] [exAlarm] [exAlarmRow] [exOut]
    (by decide) (by decide) exOut (by decide) exAlarmRow (by decide)
    (by decide) (by decide)

/-- C3: START TIME is present exactly when VALIDATION is not INVALID and a
matching resolved alarm existed for the site code of the ticket; an INVALID
row has no START TIME even though its match existed. -/
theorem c3_start_time_presence (daily : List DailyInput) (tickets : List AlarmInput)
    (spliced : List AlarmRow) (out : List OutRow)
    (hs : spliceAlarms tickets = .ok spliced)
    (hp : process_tickets daily tickets = .ok out)
    (row : OutRow) (hrow : row ∈ out) :
    ((row.startTime ≠ none) ↔
      (row.VALIDATION ≠ "INVALID" ∧
        ∃ r ∈ resolve_latest spliced, row.siteCode = some r.site)) ∧
    (row.VALIDATION = "INVALID" →
      row.startTime = none ∧
        ∃ r ∈ resolve_latest spliced, row.siteCode = some r.site) := by
  rw [process_tickets_ok daily tickets spliced out hs hp] at hrow
  obtain ⟨p, hpmem, hrow_eq⟩ := List.mem_map.mp hrow
  obtain ⟨q, m⟩ := p
  subst hrow_eq
  cases m with
  | none =>
    obtain ⟨hqmem, hnone⟩ := (left_join_mem_none _ _ q).mp hpmem
    have hst : (mkOutRow (q, none)).startTime = none := by
      simp [mkOutRow, validationOf]
    constructor
    · constructor
      · intro h
        exact absurd hst h
      · rintro ⟨_, r, hr, hsite⟩
        exact absurd hsite (hnone r hr)
    · intro hv
      rw [show (mkOutRow (q, none)).VALIDATION = "NOT IN NMS" from rfl] at hv
      exact absurd hv (by decide)
  | some mm =>
    obtain ⟨hqmem, hmg, hsiteq⟩ := (left_join_mem_some _ _ q mm).mp hpmem
    cases hc : strContainsSub mm.text diagSubstr with
    | true =>
      have hv : (mkOutRow (q, some mm)).VALIDATION = "VALID" := by
        simp [mkOutRow, validationOf, hc]
      have hst : (mkOutRow (q, some mm)).startTime = some mm.startTime := by
        simp [mkOutRow, validationOf, hc]
      constructor
      · constructor
        · intro _
          refine ⟨?_, mm, hmg, hsiteq⟩
          rw [hv]
          decide
        · intro _
          rw [hst]
          exact Option.some_ne_none mm.startTime
      · intro h
        rw [hv] at h
        exact absurd h (by decide)
    | false =>
      have hv : (mkOutRow (q, some mm)).VALIDATION = "INVALID" := by
        simp [mkOutRow, validationOf, hc]
      have hst : (mkOutRow (q, some mm)).startTime = none := by
        simp [mkOutRow, validationOf, hc]
      constructor
      · constructor
        · intro h
          exact absurd hst h
        · rintro ⟨hne, _⟩
          exact absurd hv hne
      · intro _
        exact ⟨hst, mm, hmg, hsiteq⟩

/-- C3 witness: the example VALID row carries a present START TIME. -/
theorem c3_start_time_presence_witness : exOut.startTime.isSome = true := by
  have h := (c3_start_time_presence [exDaily] [exAlarm] [exAlarmRow] [exOut]
    (by decide) (by decide) exOut (by decide)).1.mpr
    ⟨by decide, exAlarmRow, by decide, by decide⟩
  cases hx : exOut.startTime with
  | none => exact absurd hx h
  | some t => rfl

theorem filter_site_length_le_one (g : List AlarmRow) (sc : String)
    (hg : g.Pairwise (fun a b => a.site ≠ b.site)) :
    (g.filter (fun r => decide (r.site = sc))).length ≤ 1 := by
  induction g with
  | nil => simp
  | cons y g ih =>
    rw [List.pairwise_cons] at hg
    by_cases hy : y.site = sc
    · have hrest : g.filter (fun r => decide (r.site = sc)) = [] := by
        apply List.filter_eq_nil_iff.mpr
        intro z hz hdz
        have hzsc : z.site = sc := of_decide_eq_true hdz
        exact hg.1 z hz (hy.trans hzsc.symm)
      simp [List.filter_cons, hy, hrest]
    · simp only [List.filter_cons, decide_eq_true_eq, if_neg hy]
      exact ih hg.2

theorem joinOne_length (d : DailyInput × Option String) (g : List AlarmRow)
    (hg : g.Pairwise (fun a b => a.site ≠ b.site)) :
    (joinOne d g).length = 1 := by
  obtain ⟨dd, dsc⟩ := d
  cases dsc with
  | none => rfl
  | some sc =>
    cases hf : g.filter (fun r => decide (r.site = sc)) with
    | nil => simp [joinOne, hf]
    | cons m ms =>
      have hle := filter_site_length_le_one g sc hg
      rw [hf] at hle
      have hms : ms = [] := by
        cases ms with
        | nil => rfl
        | cons a as =>
          rw [List.length_cons, List.length_cons] at hle
          omega
      subst hms
      simp [joinOne, hf]

theorem left_join_length (ds : List (DailyInput × Option String)) (g : List AlarmRow)
    (hg : g.Pairwise (fun a b => a.site ≠ b.site)) :
    (left_join ds g).length = ds.length := by
  induction ds with
  | nil => rfl
  | cons d ds ih =>
    simp only [left_join, List.length_append, List.length_cons]
    rw [joinOne_length d g hg, ih]
    omega

/-- C5: the classified output has exactly one row per daily ticket: the left
join against the resolver output, whose site codes are unique, neither drops
nor duplicates a daily row. -/
theorem c5_row_count (daily : List DailyInput) (tickets : List AlarmInput)
    (out : List OutRow) (hp : process_tickets daily tickets = .ok out) :
    out.length = daily.length := by
  cases hs : spliceAlarms tickets with
  | error e =>
    simp only [process_tickets] at hp
    rw [hs] at hp
    exact Except.noConfusion hp
  | ok spliced =>
    rw [process_tickets_ok daily tickets spliced out hs hp]
    rw [List.length_map, left_join_length _ _ (resolve_latest_pairwise spliced),
      List.length_map]

/-- C5 witness: one daily ticket in, one classified row out. -/
theorem c5_row_count_witness :
    ([exOut] : List OutRow).length = ([exDaily] : List DailyInput).length :=
  c5_row_count [exDaily] [exAlarm] [exOut] (by decide)

theorem validate_csv_isOk_iff (f : UploadedFile) (required_cols : List String) :
    (validate_csv f required_cols).isOk = true ↔
      (endsWithStr (toLowerStr f.name) ".csv" = true ∧
        ∀ c ∈ required_cols,
          (f.cols.map (fun n => trimStr (toLowerStr (trimStr n)))).contains
            (toLowerStr c) = true) := by
  unfold validate_csv
  by_cases hcsv : endsWithStr (toLowerStr f.name) ".csv" = true
  · rw [if_pos hcsv]
    simp only [List.map_map]
    by_cases hm : (required_cols.filter
        (fun c => ! (f.cols.map ((fun c => trimStr (toLowerStr c)) ∘ trimStr)).contains
          (toLowerStr c))).isEmpty = true
    · rw [if_pos hm]
      rw [List.isEmpty_iff, List.filter_eq_nil_iff] at hm
      simp only [Except.isOk, Bool.not_eq_true'] at hm ⊢
      constructor
      · intro _
        refine ⟨hcsv, fun c hc => ?_⟩
        have := hm c hc
        simp only [Function.comp_def] at this
        simpa using this
      · intro _
        rfl
    · rw [if_neg hm]
      simp only [Except.isOk]
      constructor
      · intro h
        exact Bool.noConfusion h
      · rintro ⟨_, hall⟩
        exfalso
        apply hm
        rw [List.isEmpty_iff, List.filter_eq_nil_iff]
        intro c hc
        have := hall c hc
        simp only [Function.comp_def]
        simpa using this
  · rw [if_neg hcsv]
    simp only [Except.isOk]
    constructor
    · intro h
      exact Bool.noConfusion h
    · rintro ⟨hend, _⟩
      exact absurd hend hcsv

theorem validate_csv_missing_eq (f : UploadedFile) (required_cols : List String)
    (missing : List String)
    (h : validate_csv f required_cols = .error (.missingColumns missing)) :
    missing = required_cols.filter
      (fun c => ! (f.cols.map (fun n => trimStr (toLowerStr (trimStr n)))).contains
        (toLowerStr c)) := by
  unfold validate_csv at h
  by_cases hcsv : endsWithStr (toLowerStr f.name) ".csv" = true
  · rw [if_pos hcsv] at h
    by_cases hm : (required_cols.filter
        (fun c => ! ((f.cols.map trimStr).map (fun c => trimStr (toLowerStr c))).contains
          (toLowerStr c))).isEmpty = true
    · rw [if_pos hm] at h
      exact Except.noConfusion h
    · rw [if_neg hm] at h
      have h1 := Except.error.inj h
      have h2 := SchemaError.missingColumns.inj h1
      rw [← h2]
      simp only [List.map_map]
      rfl
  · rw [if_neg hcsv] at h
    exact SchemaError.noConfusion (Except.error.inj h)

/-- C6 counterexample: the source compares a required column lower-cased but
not whitespace-trimmed, so a required name carrying surrounding whitespace is
reported missing even though the trimmed, lower-cased comparison of the
claim covers it. -/
theorem c6_counterexample :
    validate_csv ⟨"a.csv", ["x"]⟩ ["x "] = .error (.missingColumns ["x "]) ∧
    (["x"].map (fun n => trimStr (toLowerStr (trimStr n)))).contains
      (trimStr (toLowerStr ("x "))) = true := by decide

/-- C6 amended: validate_csv fails exactly when the file name, lower-cased,
lacks the csv extension, or some required column, lower-cased but not
trimmed, is missing from the trimmed and lower-cased file column names; the
missing-columns error enumerates exactly the required columns that fail this
comparison, and headers differing from required names only in case are
accepted. -/
theorem c6_validate_contract (f : UploadedFile) (required_cols : List String) :
    ((validate_csv f required_cols).isOk = true ↔
      (endsWithStr (toLowerStr f.name) ".csv" = true ∧
        ∀ c ∈ required_cols,
          (f.cols.map (fun n => trimStr (toLowerStr (trimStr n)))).contains
            (toLowerStr c) = true)) ∧
    (∀ missing, validate_csv f required_cols = .error (.missingColumns missing) →
      missing = required_cols.filter
        (fun c => ! (f.cols.map (fun n => trimStr (toLowerStr (trimStr n)))).contains
          (toLowerStr c))) :=
  ⟨validate_csv_isOk_iff f required_cols,
   fun missing h => validate_csv_missing_eq f required_cols missing h⟩

/-- C6 witness: an alarm-tickets file whose controlling-object header is
fully upper-cased passes validation against the canonical required names. -/
theorem c6_validate_contract_witness :
    (validate_csv exFileC6 ticketsRequiredCols).isOk = true :=
  (c6_validate_contract exFileC6 ticketsRequiredCols).1.mpr ⟨by decide, by decide⟩

/-- C10: a daily-tickets file whose description header differs from the
canonical name only in case passes validate_csv, but the subsequent exact
column reference of process_tickets does not resolve, failing the run. -/
theorem c10_case_insensitive_validation_exact_use :
    (validate_csv exFileC10 dailyRequiredCols).isOk = true ∧
    rawDailyStage exFileC10 = .error (.columnNotFound ("short_description")) := by decide

theorem keysOfAux_subset (l : List (Option String)) :
    ∀ seen, ∀ k ∈ keysOfAux seen l, k ∈ l := by
  induction l with
  | nil => intro seen k hk; exact absurd hk (List.not_mem_nil k)
  | cons x xs ih =>
    intro seen k hk
    simp only [keysOfAux] at hk
    by_cases hx : x ∈ seen
    · rw [if_pos hx] at hk
      exact List.mem_cons_of_mem x (ih seen k hk)
    · rw [if_neg hx] at hk
      rcases List.mem_cons.mp hk with rfl | hmem
      · exact List.mem_cons_self k xs
      · exact List.mem_cons_of_mem x (ih (x :: seen) k hmem)

theorem keysOfAux_not_seen (l : List (Option String)) :
    ∀ seen, ∀ k ∈ keysOfAux seen l, k ∉ seen := by
  induction l with
  | nil => intro seen k hk; exact absurd hk (List.not_mem_nil k)
  | cons x xs ih =>
    intro seen k hk
    simp only [keysOfAux] at hk
    by_cases hx : x ∈ seen
    · rw [if_pos hx] at hk
      exact ih seen k hk
    · rw [if_neg hx] at hk
      rcases List.mem_cons.mp hk with rfl | hmem
      · exact hx
      · intro hcon
        exact ih (x :: seen) k hmem (List.mem_cons_of_mem x hcon)

theorem keysOfAux_pairwise (l : List (Option String)) :
    ∀ seen, (keysOfAux seen l).Pairwise (fun a b => a ≠ b) := by
  induction l with
  | nil => intro seen; simp [keysOfAux]
  | cons x xs ih =>
    intro seen
    simp only [keysOfAux]
    by_cases hx : x ∈ seen
    · rw [if_pos hx]; exact ih seen
    · rw [if_neg hx]
      refine List.Pairwise.cons ?_ (ih (x :: seen))
      intro b hb hcon
      exact keysOfAux_not_seen xs (x :: seen) b hb
        (by rw [← hcon]; exact List.mem_cons_self x seen)

theorem keysOfAux_complete (l : List (Option String)) :
    ∀ seen, ∀ k ∈ l, k ∉ seen → k ∈ keysOfAux seen l := by
  induction l with
  | nil => intro seen k hk; exact absurd hk (List.not_mem_nil k)
  | cons x xs ih =>
    intro seen k hk hks
    simp only [keysOfAux]
    by_cases hx : x ∈ seen
    · rw [if_pos hx]
      rcases List.mem_cons.mp hk with rfl | hmem
      · exact absurd hx hks
      · exact ih seen k hmem hks
    · rw [if_neg hx]
      by_cases hkx : k = x
      · rw [hkx]
        exact List.mem_cons_self x _
      · rcases List.mem_cons.mp hk with rfl | hmem
        · exact absurd rfl hkx
        · refine List.mem_cons_of_mem x (ih (x :: seen) k hmem ?_)
          intro hcon
          rcases List.mem_cons.mp hcon with h | h
          · exact hkx h
          · exact hks h

theorem countKey_cons (x : Option String) (xs : List (Option String))
    (k : Option String) :
    countKey (x :: xs) k = countKey xs k + (if x = k then 1 else 0) := by
  simp [countKey, List.countP_cons]

theorem filter_not_seen_cons (xs : List (Option String)) (x : Option String)
    (seen : List (Option String)) (hx : x ∉ seen) :
    (xs.filter (fun y => decide (y ∉ seen))).length =
      (xs.filter (fun y => decide (y ∉ x :: seen))).length + countKey xs x := by
  induction xs with
  | nil => simp [countKey]
  | cons y ys ih =>
    by_cases hyx : y = x
    · subst hyx
      rw [List.filter_cons, List.filter_cons, countKey_cons]
      have h1 : decide (y ∉ seen) = true := decide_eq_true hx
      have h2 : ¬ (decide (y ∉ (y :: seen)) = true) := by simp
      rw [if_pos h1, if_neg h2, List.length_cons, if_pos rfl, ih]
      omega
    · have hsame : (decide (y ∉ x :: seen)) = (decide (y ∉ seen)) := by
        simp [List.mem_cons, hyx]
      rw [List.filter_cons, List.filter_cons, countKey_cons, hsame, if_neg hyx]
      by_cases hys : (decide (y ∉ seen)) = true
      · rw [if_pos hys, if_pos hys, List.length_cons, List.length_cons, ih]
        omega
      · rw [if_neg hys, if_neg hys, ih]
        omega

theorem keysOfAux_sum (l : List (Option String)) :
    ∀ seen, ((keysOfAux seen l).map (fun k => countKey l k)).sum =
      (l.filter (fun y => decide (y ∉ seen))).length := by
  induction l with
  | nil => intro seen; simp [keysOfAux]
  | cons x xs ih =>
    intro seen
    by_cases hx : x ∈ seen
    · simp only [keysOfAux, if_pos hx]
      have hcongr : ∀ k ∈ keysOfAux seen xs,
          countKey (x :: xs) k = countKey xs k := by
        intro k hk
        have hk_not : k ∉ seen := keysOfAux_not_seen xs seen k hk
        have hkx : ¬ (x = k) := fun hcon => hk_not (hcon ▸ hx)
        rw [countKey_cons, if_neg hkx]
        omega
      rw [List.map_congr_left hcongr, ih seen, List.filter_cons,
        if_neg (by simp [hx])]
    · simp only [keysOfAux, if_neg hx]
      rw [List.map_cons, List.sum_cons]
      have hcongr : ∀ k ∈ keysOfAux (x :: seen) xs,
          countKey (x :: xs) k = countKey xs k := by
        intro k hk
        have hk_not : k ∉ x :: seen := keysOfAux_not_seen xs (x :: seen) k hk
        have hkx : ¬ (x = k) := fun hcon =>
          hk_not (by rw [← hcon]; exact List.mem_cons_self x seen)
        rw [countKey_cons, if_neg hkx]
        omega
      rw [List.map_congr_left hcongr, ih (x :: seen), countKey_cons, if_pos rfl,
        List.filter_cons, if_pos (decide_eq_true hx), List.length_cons,
        filter_not_seen_cons xs x seen hx]
      omega

theorem keysOf_sum (l : List (Option String)) :
    ((keysOf l).map (fun k => countKey l k)).sum = l.length := by
  have h := keysOfAux_sum l []
  simp only [keysOf]
  rw [h]
  have hfil : l.filter (fun y => decide (y ∉ ([] : List (Option String)))) = l := by
    apply List.filter_eq_self.mpr
    intro a _
    simp
  rw [hfil]

/-- C8 counterexample: a classified ticket with an absent site code forms a
group of its own in the summary, so the Alarm Count total is one while the
number of tickets with a non-absent site code is zero. -/
theorem c8_counterexample :
    get_unique [(none : Option String)] = [(none, 1)] ∧
    specNonAbsentCount [(none : Option String)] = 0 ∧
    ((get_unique [(none : Option String)]).map (fun p => p.2)).sum ≠
      specNonAbsentCount [(none : Option String)] := by decide

/-- C8 amended: the summary groups the classified rows by site code with an
absent code as a key of its own, counts the rows of each group exactly,
lists each occurring key once, is sorted descending by count, and its Alarm
Count total equals the total number of classified tickets. -/
theorem c8_summary_contract (l : List (Option String)) :
    ((get_unique l).map (fun p => p.2)).sum = l.length ∧
    List.Sorted descCount (get_unique l) ∧
    (get_unique l).Pairwise (fun a b => a.1 ≠ b.1) ∧
    (∀ p ∈ get_unique l, p.2 = countKey l p.1 ∧ p.1 ∈ l) ∧
    (∀ k ∈ l, (k, countKey l k) ∈ get_unique l) := by
  have hperm : List.Perm (get_unique l) ((keysOf l).map (fun k => (k, countKey l k))) :=
    List.perm_insertionSort descCount _
  refine ⟨?_, ?_, ?_, ?_, ?_⟩
  · have h2 := (hperm.map (fun p => p.2)).sum_eq
    rw [h2, List.map_map]
    exact keysOf_sum l
  · exact List.sorted_insertionSort descCount _
  · have hbase : ((keysOf l).map (fun k => (k, countKey l k))).Pairwise
        (fun a b => a.1 ≠ b.1) := by
      rw [List.pairwise_map]
      exact keysOfAux_pairwise l []
    have hsymm : Symmetric (fun a b : Option String × Nat => a.1 ≠ b.1) :=
      fun a b h hc => h hc.symm
    exact (hperm.pairwise_iff (fun hxy => hsymm hxy)).mpr hbase
  · intro p hp
    obtain ⟨k, hk, hpk⟩ := List.mem_map.mp (hperm.mem_iff.mp hp)
    rw [← hpk]
    exact ⟨rfl, keysOfAux_subset l [] k hk⟩
  · intro k hk
    have hkk : k ∈ keysOf l := keysOfAux_complete l [] k hk (List.not_mem_nil k)
    exact hperm.mem_iff.mpr (List.mem_map.mpr ⟨k, hkk, rfl⟩)

/-- C8 witness: three classified rows over two distinct keys give an Alarm
Count total of three. -/
theorem c8_summary_contract_witness :
    ((get_unique [some ("A"), none, some ("A")]).map (fun p => p.2)).sum = 3 :=
  (c8_summary_contract [some ("A"), none, some ("A")]).1

theorem goodAt_nil (i : Nat) : goodAt [] i = false := by
  simp [goodAt, List.drop_nil]

theorem goodAt_cons_zero (c : Char) (l : List Char) :
    goodAt (c :: l) 0 = (decide (c = ')') && wordAfter l) := rfl

theorem goodAt_cons_succ (c : Char) (l : List Char) (i : Nat) :
    goodAt (c :: l) (i + 1) = goodAt l i := by
  unfold goodAt
  rw [List.drop_succ_cons]

theorem extractAux_none_iff (l : List Char) :
    extractAux l = none ↔ ∀ i, goodAt l i = false := by
  induction l with
  | nil =>
    constructor
    · intro _ i
      exact goodAt_nil i
    · intro _
      rfl
  | cons c rest ih =>
    by_cases hc : c = ')'
    · subst hc
      cases hw : wordAfter rest with
      | true =>
        constructor
        · intro h
          rw [show extractAux (')' :: rest) = some (runAfter rest) from by
            simp [extractAux, hw]] at h
          exact Option.noConfusion h
        · intro h
          have h0 := h 0
          rw [goodAt_cons_zero, hw] at h0
          simp at h0
      | false =>
        rw [show extractAux (')' :: rest) = extractAux rest from by
          simp [extractAux, hw]]
        rw [ih]
        constructor
        · intro h i
          cases i with
          | zero =>
            rw [goodAt_cons_zero, hw]
            simp
          | succ j =>
            rw [goodAt_cons_succ]
            exact h j
        · intro h j
          have := h (j + 1)
          rw [goodAt_cons_succ] at this
          exact this
    · rw [show extractAux (c :: rest) = extractAux rest from by
        simp [extractAux, hc]]
      rw [ih]
      constructor
      · intro h i
        cases i with
        | zero =>
          rw [goodAt_cons_zero]
          simp [hc]
        | succ j =>
          rw [goodAt_cons_succ]
          exact h j
      · intro h j
        have := h (j + 1)
        rw [goodAt_cons_succ] at this
        exact this

theorem extractAux_some_charList (l : List Char) :
    ∀ run, extractAux l = some run →
      ∃ i, goodAt l i = true ∧ (∀ j, j < i → goodAt l j = false) ∧
        run = runAfter (l.drop (i + 1)) := by
  induction l with
  | nil => intro run h; exact Option.noConfusion h
  | cons c rest ih =>
    intro run h
    by_cases hc : c = ')'
    · subst hc
      cases hw : wordAfter rest with
      | true =>
        rw [show extractAux (')' :: rest) = some (runAfter rest) from by
          simp [extractAux, hw]] at h
        refine ⟨0, ?_, ?_, ?_⟩
        · rw [goodAt_cons_zero, hw]
          simp
        · intro j hj
          exact absurd hj (Nat.not_lt_zero j)
        · rw [List.drop_succ_cons, List.drop_zero]
          exact (Option.some.inj h).symm
      | false =>
        rw [show extractAux (')' :: rest) = extractAux rest from by
          simp [extractAux, hw]] at h
        obtain ⟨i, h1, h2, h3⟩ := ih run h
        refine ⟨i + 1, ?_, ?_, ?_⟩
        · rw [goodAt_cons_succ]
          exact h1
        · intro j hj
          cases j with
          | zero =>
            rw [goodAt_cons_zero, hw]
            simp
          | succ j0 =>
            rw [goodAt_cons_succ]
            exact h2 j0 (by omega)
        · rw [List.drop_succ_cons]
          exact h3
    · rw [show extractAux (c :: rest) = extractAux rest from by
        simp [extractAux, hc]] at h
      obtain ⟨i, h1, h2, h3⟩ := ih run h
      refine ⟨i + 1, ?_, ?_, ?_⟩
      · rw [goodAt_cons_succ]
        exact h1
      · intro j hj
        cases j with
        | zero =>
          rw [goodAt_cons_zero]
          simp [hc]
        | succ j0 =>
          rw [goodAt_cons_succ]
          exact h2 j0 (by omega)
      · rw [List.drop_succ_cons]
        exact h3

/-- C9 counterexample: in the text of one closing parenthesis followed by a
dot and a later closing parenthesis followed by a word, the source extracts
the run after the later parenthesis, while the run after the first closing
parenthesis that the claim describes does not exist. -/
theorem c9_counterexample :
    extract_site_code (").A)B") = some ("B") ∧ firstParenRun (").A)B") = none := by decide

/-- C9 amended: extract_site_code returns the trimmed maximal word run that
follows the first closing parenthesis which is itself followed, after
optional whitespace, by at least one word character; when no position of the
text matches the pattern the result is absent, without an error. -/
theorem c9_extract_contract (s : String) :
    (extract_site_code s = none ↔ ∀ i, goodAt s.data i = false) ∧
    (∀ t, extract_site_code s = some t →
      ∃ i, goodAt s.data i = true ∧ (∀ j, j < i → goodAt s.data j = false) ∧
        t = trimStr (String.mk (runAfter (s.data.drop (i + 1))))) := by
  constructor
  · rw [show (extract_site_code s = none) =
      ((extractAux s.data).map (fun run => trimStr (String.mk run)) = none) from rfl]
    rw [Option.map_eq_none']
    exact extractAux_none_iff s.data
  · intro t ht
    simp only [extract_site_code] at ht
    obtain ⟨run, hrun, hmap⟩ := Option.map_eq_some'.mp ht
    obtain ⟨i, h1, h2, h3⟩ := extractAux_some_charList s.data run hrun
    exact ⟨i, h1, h2, by rw [← hmap, h3]⟩

/-- C9 witness: the end-to-end example description yields a present site
code, since the pattern matches at the closing parenthesis of position
seven. -/
theorem c9_extract_contract_witness :
    (extract_site_code ("(INC001) SITE42 link down")).isSome = true := by
  cases hx : extract_site_code ("(INC001) SITE42 link down") with
  | none =>
    have h0 := (c9_extract_contract ("(INC001) SITE42 link down")).1.mp hx 7
    exact absurd h0 (by decide)
  | some t => rfl

end TicketValidation
